import Mathlib

/-!
Verification of the logthing message model and dispatcher (mfmayer/logthing).

The Go source is embedded shallowly: machine integers become `Nat`,
Go maps become association lists, the message channel becomes an explicit
queue (`List`), the consumer goroutine becomes a function over an explicit
event trace, and the external `LogWriter` collaborators become values whose
`WriteLogMessages` behaviour is a function of the delivered batch.
-/

namespace Logthing

/-- `Severity` (logmessage.go): `type Severity uint`; lower value = more urgent. -/
abbrev Severity := Nat

/-- `SeverityNotApplied Severity = 8` -/
def SeverityNotApplied : Severity := 8

/-- `SeverityTrace Severity = 7` -/
def SeverityTrace : Severity := 7

/-- `SeverityInfo Severity = 6` -/
def SeverityInfo : Severity := 6

/-- `SeverityNotice Severity = 5` -/
def SeverityNotice : Severity := 5

/-- `SeverityWarning Severity = 4` -/
def SeverityWarning : Severity := 4

/-- `SeverityError Severity = 3` -/
def SeverityError : Severity := 3

/-- `SeverityCritical Severity = 2` -/
def SeverityCritical : Severity := 2

/-- `SeverityAlert Severity = 1` -/
def SeverityAlert : Severity := 1

/-- `SeverityEmergency Severity = 0` -/
def SeverityEmergency : Severity := 0

/-- `UTCTime` (logthing.go): wall-clock time, modelled in broken-down UTC form
(year, month, day, hour, minute, second, nanosecond).  The Go code always
calls `.UTC()` before formatting, so the model stores the UTC fields
directly and the conversion is the identity. -/
structure UTCTime where
  year : Nat
  month : Nat
  day : Nat
  hour : Nat
  minute : Nat
  second : Nat
  nanosecond : Nat
deriving DecidableEq, Repr, Inhabited

/-- Go's zero `time.Time` is January 1, year 1, 00:00:00 UTC. -/
def UTCTime.zero : UTCTime := ⟨1, 1, 1, 0, 0, 0, 0⟩

/-- `time.Time.IsZero` -/
def UTCTime.isZero (t : UTCTime) : Bool := t = UTCTime.zero

/-- `time.Time.Before`: chronological strict order; for broken-down UTC wall
clocks this is the lexicographic order on the fields. -/
def UTCTime.before (a b : UTCTime) : Bool :=
  if a.year ≠ b.year then a.year < b.year
  else if a.month ≠ b.month then a.month < b.month
  else if a.day ≠ b.day then a.day < b.day
  else if a.hour ≠ b.hour then a.hour < b.hour
  else if a.minute ≠ b.minute then a.minute < b.minute
  else if a.second ≠ b.second then a.second < b.second
  else a.nanosecond < b.nanosecond

/-- Property values stored in a log message (`properties map[string]interface{}`),
restricted to the JSON-representable shapes the package itself stores:
strings, numbers, booleans, string arrays (the `output` slice), timestamps,
severities, and the `sProp` pre-stringified wrapper set by `SetSProperty`. -/
inductive Val where
  | vStr (s : String)
  | vNat (n : Nat)
  | vBool (b : Bool)
  | vStrList (l : List String)
  | vTime (t : UTCTime)
  | wrapped (v : Val)
deriving DecidableEq, Repr

/-- Association-list model of the Go `map[string]interface{}` property map:
insert-or-overwrite (`lmp[key] = value`). -/
def setProp (props : List (String × Val)) (key : String) (value : Val) :
    List (String × Val) :=
  if props.any (fun p => p.1 = key) then
    props.map (fun p => if p.1 = key then (key, value) else p)
  else
    props ++ [(key, value)]

/-- Map lookup (first entry with the key; `setProp` keeps keys unique). -/
def getProp : List (String × Val) → String → Option Val
  | [], _ => none
  | p :: rest, key => if p.1 = key then some p.2 else getProp rest key

/-- `logMsg` (logmessage.go): the mutable message builder.  `self` is only
the fluent-interface plumbing and carries no data, so it is omitted. -/
structure LogMsg where
  timestamp : UTCTime
  logMessageType : String
  severity : Severity
  trackingID : String
  output : List String
  properties : List (String × Val)
  whitelisted : Bool
deriving DecidableEq, Repr, Inhabited

/-- `NewLogMsg` (logmessage.go): fresh message with the given type,
severity `SeverityTrace`, whitelisted `false`. -/
def newLogMsg (messageType : String) : LogMsg :=
  { timestamp := UTCTime.zero
    logMessageType := messageType
    severity := SeverityTrace
    trackingID := ""
    output := []
    properties := []
    whitelisted := false }

/-- `logMsg.SetSeverity` (logmessage.go): takes effect only when the new
level is strictly lower (more urgent) than the current one. -/
def LogMsg.setSeverity (lm : LogMsg) (severity : Severity) : LogMsg :=
  if severity < lm.severity then { lm with severity := severity } else lm

/-- `configStruct` (config.go).  The field `whitelistedProperties` is
modelled from the spec: the repository documents the
`LOGTHING_WHITELIST_PROPERTIES` variable ("only whitelisted properties will
be logged") but the config field and its marshal-time filter are not among
the files under src/. -/
structure Config where
  logName : String
  logMaxSeverity : Severity
  whitelistLogTypes : List String
  printMaxSeverity : Severity
  printOutputProperties : List String
  whitelistedProperties : List String

/-- `configStruct.meetsPrintSeverity` (config.go): severity passes the print
threshold; a threshold equal to `SeverityNotApplied` disables printing.
(The newest message file calls this `config.meetsPrintMaxSeverity`;
the body in src is this one.) -/
def Config.meetsPrintMaxSeverity (c : Config) (severity : Severity) : Bool :=
  severity ≤ c.printMaxSeverity && c.printMaxSeverity ≠ SeverityNotApplied

/-- Type-whitelist membership test (`config.whitelistLogTypes[t]`).  The
helper name `config.isWhitelisted` itself is not among the files under src/;
its body is the map membership used verbatim in `logDispatcher.log`. -/
def Config.isWhitelisted (c : Config) (t : String) : Bool :=
  c.whitelistLogTypes.contains t

/-- Caller source location recorded by `appendOutput` via `runtime.Caller`. -/
structure CallSite where
  file : String
  line : Nat
deriving DecidableEq, Repr

/-- `logMsg.appendOutput` (logmessage.go lines 389-425): values are already
the `fmt.Sprint` renderings (strings).  With at least one value the call
escalates severity; output lines are appended only when the severity meets
the print threshold, or the type is whitelisted, or the message carries the
whitelist flag.  Multi-line values are split on line breaks and indented. -/
def LogMsg.appendOutput (cfg : Config) (lm : LogMsg) (severity : Severity)
    (values : List String) (cs : CallSite) : LogMsg :=
  if values.length ≤ 0 then lm
  else
    let lm := lm.setSeverity severity
    if ¬cfg.meetsPrintMaxSeverity severity ∧ ¬cfg.isWhitelisted lm.logMessageType ∧
        lm.whitelisted = false then lm
    else
      let outputLines := (values.map (fun v => v.splitOn "\n")).flatten
      if outputLines.length = 1 then
        { lm with output := lm.output ++
            ["[" ++ cs.file ++ ":" ++ toString cs.line ++ "]: " ++ outputLines.headI] }
      else
        { lm with output := (lm.output ++ ["[" ++ cs.file ++ ":" ++ toString cs.line ++ "]:"]) ++
            outputLines.map (fun l => "  " ++ l) }

/-- One builder call of the kinds claim C3 ranges over: an explicit
`SetSeverity` or an append-output call carrying at least one value. -/
inductive BuildCall where
  | setSev (severity : Severity)
  | append (severity : Severity) (values : List String) (cs : CallSite)

/-- The severity level a builder call applies. -/
def BuildCall.level : BuildCall → Severity
  | .setSev s => s
  | .append s _ _ => s

/-- A builder call with at least one value (append-output calls with zero
arguments are no-ops and excluded by the claim). -/
def BuildCall.nonEmpty : BuildCall → Prop
  | .setSev _ => True
  | .append _ values _ => values ≠ []

/-- Apply one builder call to a message. -/
def applyCall (cfg : Config) (lm : LogMsg) : BuildCall → LogMsg
  | .setSev s => lm.setSeverity s
  | .append s values cs => lm.appendOutput cfg s values cs

/-- Apply a sequence of builder calls in order. -/
def applyCalls (cfg : Config) (lm : LogMsg) (calls : List BuildCall) : LogMsg :=
  calls.foldl (applyCall cfg) lm

/-- Model of Go's `fmt.Sprintf` `%v` rendering for the stored value shapes.
`printLogMsg` applies it to values already unwrapped by `Property`. -/
def Val.render : Val → String
  | .vStr s => s
  | .vNat n => toString n
  | .vBool b => toString b
  | .vStrList l => "[" ++ String.intercalate " " l ++ "]"
  | .vTime t => toString t.year ++ "-" ++ toString t.month ++ "-" ++ toString t.day
  | .wrapped v => Val.render v

/-- `logMsg.Property` (logmessage.go): lookup that transparently unwraps the
`sProp` stringified-value wrapper. -/
def LogMsg.property (lm : LogMsg) (key : String) : Option Val :=
  match getProp lm.properties key with
  | some (.wrapped v) => some v
  | some v => some v
  | none => none

/-- The 27-character continuation spacer used by `printLogMsg`. -/
def newLineSpacer27 : String := "\n                           "

/-- `printLogMsg` (logdispatcher.go lines 133-162): the console line (with
the severity index selecting the logger) produced for a message, or `none`
when nothing is printed.  The print gate `config.printSeverity` is the
threshold predicate defined in config.go as `meetsPrintSeverity`.  Go
iterates `printOutputProperties` in arbitrary map order; the model iterates
the configured list in list order. -/
def printLogMsg (cfg : Config) (msg : LogMsg) : Option (Severity × String) :=
  if msg.output.length > 0 ∧ cfg.meetsPrintMaxSeverity msg.severity then
    let outputProperties := cfg.printOutputProperties.filterMap (fun k =>
      (msg.property k).map (fun v => k ++ ":" ++ Val.render v))
    let logString := String.intercalate newLineSpacer27 msg.output
    if outputProperties.length > 0 then
      let ops := "([" ++ String.intercalate " " outputProperties ++ "])"
      if msg.output.length > 1 then
        some (msg.severity, ops ++ newLineSpacer27 ++ logString)
      else
        some (msg.severity, logString ++ " " ++ ops)
    else
      some (msg.severity, logString)
  else none

/-- Result of the `Log` entry point (`logDispatcher.log`). -/
inductive LogResult where
  | ok
  | errSeverityAboveMax
  | errChannelFull
deriving DecidableEq, Repr

/-- Everything `logDispatcher.log` produced: the returned error value, the
message after its in-place mutations, the queue after the non-blocking
enqueue attempt, and the console line printed (if any). -/
structure LogOutcome where
  result : LogResult
  msg : LogMsg
  queue : List LogMsg
  console : Option (Severity × String)
deriving DecidableEq, Repr

/-- Timestamp assignment in `logDispatcher.log` (lines 183-186): `now` is
assigned when the timestamp is unset (zero). -/
def stampMsg (now : UTCTime) (msg : LogMsg) : LogMsg :=
  if msg.timestamp.isZero then { msg with timestamp := now } else msg

/-- Reserved-property assignment in `logDispatcher.log` (lines 188-194):
`type`, `timestamp`, `severity` always; `trackingID` only when set. -/
def reservedPropsMsg (msg : LogMsg) : LogMsg :=
  let msg := { msg with properties := setProp msg.properties "type" (.vStr msg.logMessageType) }
  let msg := { msg with properties := setProp msg.properties "timestamp" (.vTime msg.timestamp) }
  let msg := { msg with properties := setProp msg.properties "severity" (.vNat msg.severity) }
  if msg.trackingID ≠ "" then
    { msg with properties := setProp msg.properties "trackingID" (.vStr msg.trackingID) }
  else msg

/-- The mutations `logDispatcher.log` performs between the threshold check
and the console print (logdispatcher.go lines 183-194). -/
def prePrintMsg (now : UTCTime) (msg : LogMsg) : LogMsg :=
  reservedPropsMsg (stampMsg now msg)

/-- The message as it is enqueued: `prePrintMsg` followed by the
`msg.SetProperty("output", msg.output)` done after printing
(logdispatcher.go line 200). -/
def preparedMsg (now : UTCTime) (msg : LogMsg) : LogMsg :=
  let m := prePrintMsg now msg
  { m with properties := setProp m.properties "output" (.vStrList m.output) }

/-- `logDispatcher.log` (logdispatcher.go lines 165-208).  The buffered
channel becomes the explicit `queue` with capacity `queueCap`; `time.Now()`
becomes the `now` parameter.  Steps in source order: force at least Trace
severity; reject when the severity is above `logMaxSeverity` and the
non-empty type is not whitelisted; assign the timestamp and reserved
properties (`prePrintMsg`); print; set the `output` property
(`preparedMsg`); then the non-blocking enqueue (`select` with `default:`
returning `ErrChannelFull`). -/
def logDispatch (cfg : Config) (queueCap : Nat) (queue : List LogMsg)
    (now : UTCTime) (logMessage : LogMsg) : LogOutcome :=
  let msg := logMessage.setSeverity SeverityTrace
  if msg.severity > cfg.logMaxSeverity ∧ msg.logMessageType ≠ "" ∧
      ¬cfg.isWhitelisted msg.logMessageType then
    { result := .errSeverityAboveMax, msg := msg, queue := queue, console := none }
  else
    let console := printLogMsg cfg (prePrintMsg now msg)
    let msg := preparedMsg now msg
    if queue.length < queueCap then
      { result := .ok, msg := msg, queue := queue ++ [msg], console := console }
    else
      { result := .errChannelFull, msg := msg, queue := queue, console := console }

/-- Modelled from the spec: the dispatcher's overflow counter and overflow
callback.  The option setters (`WithOverflowCallback`, `WithQueueSize`,
logthing.go) are in src/ but the `dispatcherOptions`-based dispatcher that
implements them is not.  Per the spec, a queue-full drop increments the
atomic overflow counter and invokes the optional callback with the dropped
message and the current counter value.  The callback invocation is recorded
as an event list. -/
def logWithOverflow (cfg : Config) (queueCap : Nat) (queue : List LogMsg)
    (now : UTCTime) (msg : LogMsg) (counter : Nat) :
    LogOutcome × Nat × List (LogMsg × Nat) :=
  let o := logDispatch cfg queueCap queue now msg
  if o.result = .errChannelFull then (o, counter + 1, [(o.msg, counter + 1)])
  else (o, counter, [])

/-- The five reserved payload keys owned by the system. -/
def reservedKeys : List String := ["type", "timestamp", "severity", "trackingID", "output"]

/-- Modelled from the spec: marshal-time property redaction.  The README
documents `LOGTHING_WHITELIST_PROPERTIES` ("If stated (not empty), only
whitelisted properties will be logged") but the config field and the filter
applied when marshalling for the sinks are not among the files under src/.
Per the spec: when `whitelistedProperties` is non-empty, only whitelisted
keys plus the five reserved keys survive into the JSON payload. -/
def marshalProps (cfg : Config) (props : List (String × Val)) : List (String × Val) :=
  if cfg.whitelistedProperties.isEmpty then props
  else props.filter (fun p =>
    cfg.whitelistedProperties.contains p.1 || reservedKeys.contains p.1)

/-- The parallel arrays handed to every writer by `writeLogMessages`
(logdispatcher.go lines 104-117): each message's marshalled property map
and its timestamp, in the sorted batch's order.  The `json.Marshal` error
branch (which would skip a message) is unreachable for the closed value
type `Val`, so the arrays are plain maps over the batch. -/
def deliveredArrays (cfg : Config) (sortedBatch : List LogMsg) :
    List (List (String × Val)) × List UTCTime :=
  (sortedBatch.map (fun m => marshalProps cfg m.properties),
   sortedBatch.map (fun m => m.timestamp))

/-- The comparison closure passed to `sort.Slice` in `writeLogMessages`
(logdispatcher.go lines 97-102): strictly-before on timestamps. -/
def tsLess (a b : LogMsg) : Bool := a.timestamp.before b.timestamp

/-- Contract of Go's `sort.Slice` (an external standard-library call):
the result is a permutation of the input arranged so that no later element
is `less` than an earlier one.  `sort.Slice` is documented as NOT
guaranteed to be stable, so nothing relates the order of equal elements to
their input order. -/
def sortSliceOK {α : Type} (less : α → α → Bool) (l out : List α) : Prop :=
  out.Perm l ∧ List.Pairwise (fun a b => less b a = false) out

/-! ### The consumer worker (newLogDispatcher's goroutine) -/

/-- One event observed by the consumer goroutine's `select`
(logdispatcher.go lines 51-71): a ticker tick, or a message received from
the channel.  The event list ends when the channel reports closed. -/
inductive WEvent where
  | tick
  | recv (m : LogMsg)

/-- The messages delivered by the channel over an event list, in FIFO
order.  Go delivers every message buffered before `close` ahead of the
closed signal, so these are exactly the messages accepted before `Close`. -/
def recvs : List WEvent → List LogMsg
  | [] => []
  | .tick :: es => recvs es
  | .recv m :: es => m :: recvs es

/-- The batches passed to `writeLogMessages` by the worker loop: on a tick
the current batch is flushed and reset; a received message is appended to
the batch; when the channel reports closed the final batch is flushed. -/
def workerFlushes : List WEvent → List LogMsg → List (List LogMsg)
  | [], batch => [batch]
  | .tick :: es, batch => batch :: workerFlushes es []
  | .recv m :: es, batch => workerFlushes es (batch ++ [m])

/-- Observable actions of the worker: a flush (a call to
`writeLogMessages`), and the `close(ld.done)` signal on which
`logDispatcher.close` blocks. -/
inductive WorkerAction where
  | flush (batch : List LogMsg)
  | done

/-- The worker's action trace, mirroring the goroutine: tick flushes, the
final flush on channel close, then `close(ld.done)` and return. -/
def workerTraceAux : List WEvent → List LogMsg → List WorkerAction
  | [], batch => [.flush batch, .done]
  | .tick :: es, batch => .flush batch :: workerTraceAux es []
  | .recv m :: es, batch => workerTraceAux es (batch ++ [m])

/-- The worker's trace from its initial empty batch. -/
def workerTrace (es : List WEvent) : List WorkerAction :=
  workerTraceAux es []

/-! ### Writers (sinks) and the flush loop over the registry -/

/-- Response of a writer's `WriteLogMessages`: success, a recoverable
error, or an error matching `logwriter.ErrWriterDisable`. -/
inductive WResp where
  | ok
  | fail
  | disable
deriving DecidableEq, Repr

/-- An external `LogWriter`, modelled by its `WriteLogMessages` behaviour
as a function of the delivered arrays. -/
structure Writer where
  resp : List (List (String × Val)) → List UTCTime → WResp

/-- Observable interactions with the writer registry: a
`WriteLogMessages` call on the writer at slot `i`, and a `Close` call. -/
inductive WAction where
  | write (i : Nat) (raws : List (List (String × Val))) (ts : List UTCTime)
  | closeWriter (i : Nat)
deriving DecidableEq, Repr

/-- The registry slot an action concerns. -/
def WAction.slot : WAction → Nat
  | .write i _ _ => i
  | .closeWriter i => i

/-- The actions concerning slot `n`. -/
def eventsFor (n : Nat) (acts : List WAction) : List WAction :=
  acts.filter (fun a => a.slot = n)

/-- One iteration of the writer loop in `writeLogMessages` (logdispatcher.go
lines 118-129) for the slot at index `i`: a `nil` slot is skipped;
otherwise the writer is called, and on `ErrWriterDisable` it is closed and
its slot set to `nil`. -/
def writerStep (i : Nat) (raws : List (List (String × Val))) (ts : List UTCTime) :
    Option Writer → Option Writer × List WAction
  | none => (none, [])
  | some w =>
    if w.resp raws ts = .disable then (none, [.write i raws ts, .closeWriter i])
    else (some w, [.write i raws ts])

/-- The writer loop over the registry tail starting at index `i`. -/
def flushWritersAux (raws : List (List (String × Val))) (ts : List UTCTime) :
    Nat → List (Option Writer) → List (Option Writer) × List WAction
  | _, [] => ([], [])
  | i, w :: rest =>
    let s := writerStep i raws ts w
    let r := flushWritersAux raws ts (i + 1) rest
    (s.1 :: r.1, s.2 ++ r.2)

/-- `writeLogMessages` (logdispatcher.go lines 92-130) given the batch and
the reordering chosen by `sort.Slice` for it: an empty batch returns
immediately; otherwise the delivered arrays are built from the sorted batch
and every non-`nil` writer is called in registration order. -/
def writeLogMessagesWith (cfg : Config) (ws : List (Option Writer))
    (logMessages : List LogMsg) (sorted : List LogMsg) :
    List (Option Writer) × List WAction :=
  if logMessages.length ≤ 0 then (ws, [])
  else
    let arrays := deliveredArrays cfg sorted
    flushWritersAux arrays.1 arrays.2 0 ws

/-- A sequence of flushes (each with its batch and the sorted arrangement
chosen for it) applied to the registry, collecting per-flush actions. -/
def runFlushes (cfg : Config) (ws : List (Option Writer)) :
    List (List LogMsg × List LogMsg) → List (Option Writer) × List (List WAction)
  | [] => (ws, [])
  | (b, s) :: rest =>
    let f := writeLogMessagesWith cfg ws b s
    let r := runFlushes cfg f.1 rest
    (r.1, f.2 :: r.2)

/-- The evolution of one registry slot across a flush sequence: its final
state and its per-flush actions.  `runFlushes` projected to any slot equals
this function of that slot alone, which is how slot independence ("one
sink's failure never affects delivery to the others") is captured. -/
def slotRun (cfg : Config) (i : Nat) :
    Option Writer → List (List LogMsg × List LogMsg) →
    Option Writer × List (List WAction)
  | w, [] => (w, [])
  | w, (b, s) :: rest =>
    if b.length ≤ 0 then
      let r := slotRun cfg i w rest
      (r.1, [] :: r.2)
    else
      let arrays := deliveredArrays cfg s
      let st := writerStep i arrays.1 arrays.2 w
      let r := slotRun cfg i st.1 rest
      (r.1, st.2 :: r.2)

/-! ### Go `sort.Slice` (standard library, pre-Go-1.19 algorithm)

`writeLogMessages` calls `sort.Slice`, an external standard-library
function.  Its documented contract is `sortSliceOK`; the concrete algorithm
executed by the Go versions contemporary with this code (quicksort with a
shell/insertion tail, `sort.go`) is embedded below to exhibit actual
behaviour on concrete inputs.  Loops become fuelled recursion; the fuel is
always ample for the concrete inputs evaluated here. -/

/-- Inner loop of Go `insertionSort`:
`for j := i; j > a && data.Less(j, j-1); j--  { data.Swap(j, j-1) }`. -/
def insInnerGo {α : Type} [Inhabited α] (less : α → α → Bool) (a : Nat) :
    Nat → Array α → Array α
  | 0, arr => arr
  | j + 1, arr =>
    if a < j + 1 then
      if less (arr[j + 1]!) (arr[j]!) then insInnerGo less a j (arr.swap! (j + 1) j)
      else arr
    else arr

/-- Outer loop of Go `insertionSort`: `for i := a + 1; i < b; i++`
(fuelled; the fuel bounds the iteration count). -/
def insOuterGo {α : Type} [Inhabited α] (less : α → α → Bool) (a b : Nat) :
    Nat → Nat → Array α → Array α
  | 0, _, arr => arr
  | fuel + 1, i, arr =>
    if i < b then insOuterGo less a b fuel (i + 1) (insInnerGo less a i arr) else arr

/-- Go `insertionSort(data, a, b)`. -/
def insertionSortGo {α : Type} [Inhabited α] (less : α → α → Bool) (a b : Nat)
    (arr : Array α) : Array α :=
  insOuterGo less a b (b + 1) (a + 1) arr

/-- Go `siftDown`'s loop, with the mutating `root` explicit and fuel. -/
def siftDownAux {α : Type} [Inhabited α] (less : α → α → Bool) (hi first : Nat) :
    Nat → Nat → Array α → Array α
  | _, 0, arr => arr
  | root, fuel + 1, arr =>
    let child := 2 * root + 1
    if child ≥ hi then arr
    else
      let child :=
        if child + 1 < hi then
          if less (arr[first + child]!) (arr[first + child + 1]!) then child + 1 else child
        else child
      if !(less (arr[first + root]!) (arr[first + child]!)) then arr
      else siftDownAux less hi first child fuel (arr.swap! (first + root) (first + child))

/-- Go `siftDown(data, lo, hi, first)`. -/
def siftDownGo {α : Type} [Inhabited α] (less : α → α → Bool) (lo hi first : Nat)
    (arr : Array α) : Array α :=
  siftDownAux less hi first lo (hi + 1) arr

/-- Heap-build loop of Go `heapSort`: `for i := (hi-1)/2; i >= 0; i--`. -/
def heapBuildGo {α : Type} [Inhabited α] (less : α → α → Bool) (hi first : Nat) :
    Nat → Array α → Array α
  | 0, arr => siftDownGo less 0 hi first arr
  | i + 1, arr => heapBuildGo less hi first i (siftDownGo less (i + 1) hi first arr)

/-- Pop loop of Go `heapSort`: `for i := hi-1; i >= 0; i--`. -/
def heapExtractGo {α : Type} [Inhabited α] (less : α → α → Bool) (first : Nat) :
    Nat → Array α → Array α
  | 0, arr => siftDownGo less 0 0 first (arr.swap! first first)
  | i + 1, arr =>
    heapExtractGo less first i (siftDownGo less 0 (i + 1) first (arr.swap! first (first + i + 1)))

/-- Go `heapSort(data, a, b)`. -/
def heapSortGo {α : Type} [Inhabited α] (less : α → α → Bool) (a b : Nat)
    (arr : Array α) : Array α :=
  let first := a
  let hi := b - a
  let arr := heapBuildGo less hi first ((hi - 1) / 2) arr
  if hi = 0 then arr else heapExtractGo less first (hi - 1) arr

/-- Go `medianOfThree(data, m1, m0, m2)`. -/
def medianOfThreeGo {α : Type} [Inhabited α] (less : α → α → Bool) (m1 m0 m2 : Nat)
    (arr : Array α) : Array α :=
  let arr := if less (arr[m1]!) (arr[m0]!) then arr.swap! m1 m0 else arr
  if less (arr[m2]!) (arr[m1]!) then
    let arr := arr.swap! m2 m1
    if less (arr[m1]!) (arr[m0]!) then arr.swap! m1 m0 else arr
  else arr

/-- `for ; a < c && data.Less(a, pivot); a++`. -/
def scanAGo {α : Type} [Inhabited α] (less : α → α → Bool) (pivot c : Nat)
    (arr : Array α) : Nat → Nat → Nat
  | 0, a => a
  | fuel + 1, a =>
    if a < c then
      if less (arr[a]!) (arr[pivot]!) then scanAGo less pivot c arr fuel (a + 1) else a
    else a

/-- `for ; b < c && !data.Less(pivot, b); b++`. -/
def scanBGo {α : Type} [Inhabited α] (less : α → α → Bool) (pivot c : Nat)
    (arr : Array α) : Nat → Nat → Nat
  | 0, b => b
  | fuel + 1, b =>
    if b < c then
      if !(less (arr[pivot]!) (arr[b]!)) then scanBGo less pivot c arr fuel (b + 1) else b
    else b

/-- `for ; b < c && data.Less(pivot, c-1); c--`. -/
def scanCGo {α : Type} [Inhabited α] (less : α → α → Bool) (pivot b : Nat)
    (arr : Array α) : Nat → Nat → Nat
  | 0, c => c
  | fuel + 1, c =>
    if b < c then
      if less (arr[pivot]!) (arr[c - 1]!) then scanCGo less pivot b arr fuel (c - 1) else c
    else c

/-- The main partition loop of Go `doPivot` on state `(b, c, arr)`. -/
def partLoopGo {α : Type} [Inhabited α] (less : α → α → Bool) (pivot : Nat) :
    Nat → Nat × Nat × Array α → Nat × Nat × Array α
  | 0, st => st
  | fuel + 1, (b, c, arr) =>
    let b := scanBGo less pivot c arr (c + 1) b
    let c := scanCGo less pivot b arr (c + 1) c
    if b ≥ c then (b, c, arr)
    else partLoopGo less pivot fuel (b + 1, c - 1, arr.swap! b (c - 1))

/-- `for ; a < b && !data.Less(b-1, pivot); b--`. -/
def scanPBGo {α : Type} [Inhabited α] (less : α → α → Bool) (pivot a : Nat)
    (arr : Array α) : Nat → Nat → Nat
  | 0, b => b
  | fuel + 1, b =>
    if a < b then
      if !(less (arr[b - 1]!) (arr[pivot]!)) then scanPBGo less pivot a arr fuel (b - 1) else b
    else b

/-- `for ; a < b && data.Less(a, pivot); a++`. -/
def scanPAGo {α : Type} [Inhabited α] (less : α → α → Bool) (pivot b : Nat)
    (arr : Array α) : Nat → Nat → Nat
  | 0, a => a
  | fuel + 1, a =>
    if a < b then
      if less (arr[a]!) (arr[pivot]!) then scanPAGo less pivot b arr fuel (a + 1) else a
    else a

/-- The duplicate-protection loop of Go `doPivot` on state `(a, b, arr)`. -/
def protLoopGo {α : Type} [Inhabited α] (less : α → α → Bool) (pivot : Nat) :
    Nat → Nat × Nat × Array α → Nat × Nat × Array α
  | 0, st => st
  | fuel + 1, (a, b, arr) =>
    let b := scanPBGo less pivot a arr (b + 1) b
    let a := scanPAGo less pivot b arr (b + 1) a
    if a ≥ b then (a, b, arr)
    else protLoopGo less pivot fuel (a + 1, b - 1, arr.swap! a (b - 1))

/-- Go `doPivot(data, lo, hi) (midlo, midhi)`, returning
`(midlo, midhi, arr)`. -/
def doPivotGo {α : Type} [Inhabited α] (less : α → α → Bool) (lo hi : Nat)
    (arr : Array α) : Nat × Nat × Array α :=
  let m := (lo + hi) / 2
  let arr :=
    if hi - lo > 40 then
      let s := (hi - lo) / 8
      let arr := medianOfThreeGo less lo (lo + s) (lo + 2 * s) arr
      let arr := medianOfThreeGo less m (m - s) (m + s) arr
      medianOfThreeGo less (hi - 1) (hi - 1 - s) (hi - 1 - 2 * s) arr
    else arr
  let arr := medianOfThreeGo less lo m (hi - 1) arr
  let pivot := lo
  let a := scanAGo less pivot (hi - 1) arr hi (lo + 1)
  let st := partLoopGo less pivot hi (a, hi - 1, arr)
  let b := st.1
  let c := st.2.1
  let arr := st.2.2
  let protect := hi - c < 5
  let tup : Nat × Nat × Array α × Bool :=
    if !protect && decide (hi - c < (hi - lo) / 4) then
      let s1 : Nat × Array α × Nat :=
        if !(less (arr[pivot]!) (arr[hi - 1]!)) then (c + 1, arr.swap! c (hi - 1), 1)
        else (c, arr, 0)
      let c := s1.1
      let arr := s1.2.1
      let d1 := s1.2.2
      let s2 : Nat × Nat :=
        if !(less (arr[b - 1]!) (arr[pivot]!)) then (b - 1, 1) else (b, 0)
      let b := s2.1
      let d2 := s2.2
      let s3 : Nat × Array α × Nat :=
        if !(less (arr[m]!) (arr[pivot]!)) then (b - 1, arr.swap! m (b - 1), 1)
        else (b, arr, 0)
      let b := s3.1
      let arr := s3.2.1
      let d3 := s3.2.2
      (b, c, arr, decide (d1 + d2 + d3 > 1))
    else (b, c, arr, protect)
  let b := tup.1
  let c := tup.2.1
  let arr := tup.2.2.1
  let protect := tup.2.2.2
  let fin := if protect then protLoopGo less pivot hi (a, b, arr) else (a, b, arr)
  let b := fin.2.1
  let arr := fin.2.2
  let arr := arr.swap! pivot (b - 1)
  (b - 1, c, arr)

/-- Gap-6 ShellSort pass in Go `quickSort`'s tail:
`for i := a + 6; i < b; i++ { if data.Less(i, i-6) { data.Swap(i, i-6) } }`. -/
def shellPass6Go {α : Type} [Inhabited α] (less : α → α → Bool) (a b : Nat) :
    Nat → Nat → Array α → Array α
  | 0, _, arr => arr
  | fuel + 1, i, arr =>
    if i < b then
      let arr := if less (arr[i]!) (arr[i - 6]!) then arr.swap! i (i - 6) else arr
      shellPass6Go less a b fuel (i + 1) arr
    else arr

/-- The bit-length loop of Go `maxDepth`:
`for i := n; i > 0; i >>= 1 { depth++ }` (fuelled). -/
def bitLenGo : Nat → Nat → Nat
  | 0, _ => 0
  | fuel + 1, n => if n = 0 then 0 else bitLenGo fuel (n / 2) + 1

/-- Go `maxDepth(n)`: twice the number of bits of `n`. -/
def maxDepthGo (n : Nat) : Nat := 2 * bitLenGo (n + 1) n

/-- Go `quickSort(data, a, b, maxDepth)` with fuel for the loop/recursion. -/
def quickSortGo {α : Type} [Inhabited α] (less : α → α → Bool) :
    Nat → Nat → Nat → Nat → Array α → Array α
  | 0, _, _, _, arr => arr
  | fuel + 1, a, b, maxd, arr =>
    if b - a > 12 then
      if maxd = 0 then heapSortGo less a b arr
      else
        let p := doPivotGo less a b arr
        let mlo := p.1
        let mhi := p.2.1
        let arr := p.2.2
        if mlo - a < b - mhi then
          quickSortGo less fuel mhi b (maxd - 1) (quickSortGo less fuel a mlo (maxd - 1) arr)
        else
          quickSortGo less fuel a mlo (maxd - 1) (quickSortGo less fuel mhi b (maxd - 1) arr)
    else if b - a > 1 then
      insertionSortGo less a b (shellPass6Go less a b (b + 1) (a + 6) arr)
    else arr

/-- Go `sort.Slice(x, less)`: `quickSort(lessSwap, 0, length, maxDepth(length))`. -/
def goSortSlice {α : Type} [Inhabited α] (less : α → α → Bool) (l : List α) : List α :=
  (quickSortGo less (l.length + maxDepthGo l.length + 1) 0 l.length
    (maxDepthGo l.length) l.toArray).toList

/-! ### `UTCTime.MarshalJSON` (logthing.go lines 33-36) -/

/-- Zero-pad a decimal rendering to `width` digits (Go `appendInt` padding). -/
def padNum (width n : Nat) : String :=
  let s := toString n
  if s.length < width then String.mk (List.replicate (width - s.length) '0') ++ s else s

/-- Strip trailing zero digits (Go `fmtFrac` with a trimming `9`-layout). -/
def dropTrailingZeros (s : String) : String :=
  String.mk ((s.toList.reverse.dropWhile (fun ch => ch = '0')).reverse)

/-- The fractional-seconds chunk produced by the layout `.999999`: the
nanosecond value truncated to microseconds, printed as six digits with
trailing zeros removed, the dot omitted when nothing remains. -/
def fmtFrac6 (ns : Nat) : String :=
  let digits := padNum 6 (ns / 1000)
  let trimmed := dropTrailingZeros digits
  if trimmed = "" then "" else "." ++ trimmed

/-- `UTCTime.MarshalJSON` (logthing.go lines 33-36):
`fmt.Sprintf("\"%s\"", time.Time(t).UTC().Format("2006-01-02T15:04:05.999999Z"))`.
The model stores broken-down UTC fields, so `.UTC()` is the identity; the
trailing `Z` in the layout is a literal. -/
def UTCTime.marshalJSON (t : UTCTime) : String :=
  "\"" ++ padNum 4 t.year ++ "-" ++ padNum 2 t.month ++ "-" ++ padNum 2 t.day ++
    "T" ++ padNum 2 t.hour ++ ":" ++ padNum 2 t.minute ++ ":" ++ padNum 2 t.second ++
    fmtFrac6 t.nanosecond ++ "Z\""

/-! ### Concrete instances used by the closed theorems -/

/-- A concrete configuration: the source defaults
(`logMaxSeverity = SeverityError`, `printMaxSeverity = SeverityTrace`)
with one whitelisted type. -/
def exCfg : Config :=
  { logName := "svc"
    logMaxSeverity := SeverityError
    whitelistLogTypes := ["wl"]
    printMaxSeverity := SeverityTrace
    printOutputProperties := []
    whitelistedProperties := [] }

/-- `exCfg` with the property whitelist `{"foo"}` from the spec scenario. -/
def exCfgWl : Config := { exCfg with whitelistedProperties := ["foo"] }

/-- A concrete caller site. -/
def exSite : CallSite := ⟨"main.go", 42⟩

/-- A concrete builder-call sequence: Warning append, explicit Error, Info append. -/
def exCalls : List BuildCall :=
  [.append SeverityWarning ["a"] exSite, .setSev SeverityError,
   .append SeverityInfo ["b"] exSite]

/-- A concrete dispatch time. -/
def exNow : UTCTime := ⟨2020, 9, 2, 20, 47, 14, 0⟩

/-- A message stamped at second `sec`, tagged by `id` via the tracking ID. -/
def tsMsg (sec : Nat) (id : String) : LogMsg :=
  { newLogMsg "t" with timestamp := ⟨2020, 1, 1, 0, 0, sec, 0⟩, trackingID := id }

/-- Seven-message batch with two equal-timestamp pairs; on it the embedded
`sort.Slice` algorithm reorders the equal-timestamp messages "0" and "3". -/
def c2Batch : List LogMsg :=
  [tsMsg 5 "0", tsMsg 0 "1", tsMsg 0 "2", tsMsg 5 "3", tsMsg 0 "4", tsMsg 0 "5",
   tsMsg 1 "6"]

/-- `exCfg` with console printing limited to Error and above and logging
open up to Trace: a Warning append is below the print gate but the message
still passes the log threshold. -/
def c10Cfg : Config :=
  { logName := "svc"
    logMaxSeverity := SeverityTrace
    whitelistLogTypes := ["wl"]
    printMaxSeverity := SeverityError
    printOutputProperties := []
    whitelistedProperties := [] }

/-- A severity-Warning message of non-whitelisted type `"x"` (the builder
state after one `Warning` call whose output was below the print gate). -/
def c5Msg : LogMsg := { newLogMsg "x" with severity := SeverityWarning }

/-- A severity-Warning message with empty type. -/
def c9Msg : LogMsg := { newLogMsg "" with severity := SeverityWarning }

/-- A severity-Error message of type `"x"`: passes the Error threshold. -/
def c6Msg : LogMsg := { newLogMsg "x" with severity := SeverityError }

/-- A delivered message carrying caller properties `foo` and `bar`. -/
def c4Msg : LogMsg :=
  { newLogMsg "x" with
    severity := SeverityError
    properties := [("foo", Val.vNat 1), ("bar", Val.vNat 2)] }

/-- A writer that reports `ErrWriterDisable` on every call. -/
def exWriterDisable : Writer := ⟨fun _ _ => .disable⟩

/-- A writer that always succeeds. -/
def exWriterOk : Writer := ⟨fun _ _ => .ok⟩

/-- A concrete worker event trace: receive, tick, receive, then close. -/
def exEvents : List WEvent :=
  [.recv (tsMsg 1 "a"), .tick, .recv (tsMsg 2 "b")]

end Logthing

namespace Logthing

/-- `setSeverity` computes the minimum of the old and the new level. -/
theorem setSeverity_severity (lm : LogMsg) (s : Severity) :
    (lm.setSeverity s).severity = min lm.severity s := by
  unfold LogMsg.setSeverity
  rcases lt_or_ge s lm.severity with h | h
  · simp [h, Nat.min_eq_right (le_of_lt h)]
  · simp [not_lt.mpr h, Nat.min_eq_left h]

/-- `setSeverity` leaves the message unchanged when the new level is not
strictly more urgent. -/
theorem setSeverity_noop (lm : LogMsg) (s : Severity) (h : ¬s < lm.severity) :
    lm.setSeverity s = lm := by
  unfold LogMsg.setSeverity
  simp [h]

/-- `appendOutput` with at least one value escalates severity exactly like
`setSeverity` (the threshold gate sits after the escalation). -/
theorem appendOutput_severity (cfg : Config) (lm : LogMsg) (s : Severity)
    (values : List String) (cs : CallSite) (h : values ≠ []) :
    (lm.appendOutput cfg s values cs).severity = min lm.severity s := by
  unfold LogMsg.appendOutput
  have hlen : ¬values.length ≤ 0 := by
    simpa [Nat.pos_iff_ne_zero, List.length_eq_zero] using h
  simp only [hlen, if_false]
  by_cases hgate : ¬cfg.meetsPrintMaxSeverity s ∧
      ¬cfg.isWhitelisted (lm.setSeverity s).logMessageType ∧
      (lm.setSeverity s).whitelisted = false
  · simp [hgate, setSeverity_severity]
  · simp only [hgate, if_false]
    split <;> simp [setSeverity_severity]

/-- `setSeverity` changes only the `severity` field. -/
theorem setSeverity_fields (lm : LogMsg) (s : Severity) :
    (lm.setSeverity s).logMessageType = lm.logMessageType ∧
    (lm.setSeverity s).whitelisted = lm.whitelisted ∧
    (lm.setSeverity s).output = lm.output ∧
    (lm.setSeverity s).timestamp = lm.timestamp ∧
    (lm.setSeverity s).trackingID = lm.trackingID ∧
    (lm.setSeverity s).properties = lm.properties := by
  unfold LogMsg.setSeverity
  split <;> simp

/-- Severity of a call sequence as a left fold of `min` over the levels. -/
theorem applyCalls_severity (cfg : Config) (lm : LogMsg) (calls : List BuildCall)
    (h : ∀ c ∈ calls, c.nonEmpty) :
    (applyCalls cfg lm calls).severity
      = calls.foldl (fun a c => min a c.level) lm.severity := by
  induction calls generalizing lm with
  | nil => rfl
  | cons c cs ih =>
    have hcs : ∀ c' ∈ cs, c'.nonEmpty := fun c' hc' => h c' (List.mem_cons_of_mem _ hc')
    have hstep : (applyCall cfg lm c).severity = min lm.severity c.level := by
      cases c with
      | setSev s => exact setSeverity_severity lm s
      | append s values site =>
        exact appendOutput_severity cfg lm s values site (h _ (List.mem_cons_self _ _))
    calc (applyCalls cfg lm (c :: cs)).severity
        = (applyCalls cfg (applyCall cfg lm c) cs).severity := rfl
      _ = cs.foldl (fun a c => min a c.level) (applyCall cfg lm c).severity := ih _ hcs
      _ = cs.foldl (fun a c => min a c.level) (min lm.severity c.level) := by rw [hstep]
      _ = (c :: cs).foldl (fun a c => min a c.level) lm.severity := rfl

/-- Left folds of `min` over `Nat` are invariant under permutation. -/
theorem foldl_min_perm (l₁ l₂ : List Nat) (h : l₁.Perm l₂) (init : Nat) :
    l₁.foldl min init = l₂.foldl min init := by
  induction h generalizing init with
  | nil => rfl
  | cons x _ ih => simp only [List.foldl_cons]; exact ih _
  | swap x y l => simp only [List.foldl_cons]; rw [min_right_comm]
  | trans _ _ ih₁ ih₂ => rw [ih₁, ih₂]

/-- C3: for every message created by the builder (initial severity Trace)
and every sequence of `SetSeverity` and append-output calls each given at
least one value, the final severity equals the minimum of Trace and all
applied levels, independent of the order of the calls; and
`SetSeverity(level)` changes the message only when `level` is strictly
more urgent (numerically lower) than the current severity. -/
theorem builder_severity_min (cfg : Config) (messageType : String)
    (calls : List BuildCall) (h : ∀ c ∈ calls, c.nonEmpty) :
    (applyCalls cfg (newLogMsg messageType) calls).severity
        = (calls.map BuildCall.level).foldl min SeverityTrace ∧
    (∀ calls₂, calls.Perm calls₂ →
        (applyCalls cfg (newLogMsg messageType) calls₂).severity
          = (applyCalls cfg (newLogMsg messageType) calls).severity) ∧
    (∀ lm : LogMsg, ∀ level, ¬level < lm.severity → lm.setSeverity level = lm) ∧
    (∀ lm : LogMsg, ∀ level, level < lm.severity →
        (lm.setSeverity level).severity = level) := by
  have hbase : ∀ (cs : List BuildCall), (∀ c ∈ cs, c.nonEmpty) →
      (applyCalls cfg (newLogMsg messageType) cs).severity
        = (cs.map BuildCall.level).foldl min SeverityTrace := by
    intro cs hcs
    rw [applyCalls_severity cfg _ cs hcs, List.foldl_map]
    rfl
  refine ⟨hbase calls h, ?_, ?_, ?_⟩
  · intro calls₂ hperm
    have h₂ : ∀ c ∈ calls₂, c.nonEmpty := fun c hc => h c (hperm.mem_iff.mpr hc)
    rw [hbase calls h, hbase calls₂ h₂]
    exact foldl_min_perm _ _ (hperm.map BuildCall.level).symm SeverityTrace
  · exact fun lm level hl => setSeverity_noop lm level hl
  · intro lm level hl
    rw [setSeverity_severity]
    exact Nat.min_eq_right (Nat.le_of_lt hl)

/-- Witness for C3 at the concrete call sequence `exCalls`: severities
Warning (4), Error (3), Info (6) fold to 3. -/
theorem builder_severity_min_witness :
    (applyCalls exCfg (newLogMsg "x") exCalls).severity
        = (exCalls.map BuildCall.level).foldl min SeverityTrace ∧
    (∀ calls₂, exCalls.Perm calls₂ →
        (applyCalls exCfg (newLogMsg "x") calls₂).severity
          = (applyCalls exCfg (newLogMsg "x") exCalls).severity) ∧
    (∀ lm : LogMsg, ∀ level, ¬level < lm.severity → lm.setSeverity level = lm) ∧
    (∀ lm : LogMsg, ∀ level, level < lm.severity →
        (lm.setSeverity level).severity = level) :=
  builder_severity_min exCfg "x" exCalls (by
    intro c hc
    fin_cases hc <;> simp [BuildCall.nonEmpty])

/-- A message in a worker flush came from the initial batch or the channel. -/
theorem workerFlushes_mem_source (es : List WEvent) (batch b : List LogMsg)
    (x : LogMsg) (hb : b ∈ workerFlushes es batch) (hx : x ∈ b) :
    x ∈ batch ∨ x ∈ recvs es := by
  induction es generalizing batch with
  | nil =>
    have : b = batch := by simpa [workerFlushes] using hb
    subst this
    exact Or.inl hx
  | cons e es ih =>
    cases e with
    | tick =>
      have hb' : b = batch ∨ b ∈ workerFlushes es [] := by
        simpa [workerFlushes] using hb
      rcases hb' with hb' | hb'
      · subst hb'; exact Or.inl hx
      · rcases ih [] hb' with h0 | h0
        · exact absurd h0 (List.not_mem_nil x)
        · exact Or.inr (by simpa [recvs] using h0)
    | recv m =>
      have hb' : b ∈ workerFlushes es (batch ++ [m]) := by
        simpa [workerFlushes] using hb
      rcases ih (batch ++ [m]) hb' with h0 | h0
      · rcases List.mem_append.mp h0 with h1 | h1
        · exact Or.inl h1
        · have : x = m := by simpa using h1
          exact Or.inr (by simp [recvs, this])
      · exact Or.inr (by simp [recvs, h0])

/-- Every message in the current batch or still to be received lands in
some flush. -/
theorem workerFlushes_covers (es : List WEvent) (batch : List LogMsg) (x : LogMsg)
    (hx : x ∈ batch ∨ x ∈ recvs es) :
    ∃ b ∈ workerFlushes es batch, x ∈ b := by
  induction es generalizing batch with
  | nil =>
    rcases hx with hx | hx
    · exact ⟨batch, by simp [workerFlushes], hx⟩
    · simp [recvs] at hx
  | cons e es ih =>
    cases e with
    | tick =>
      rcases hx with hx | hx
      · exact ⟨batch, by simp [workerFlushes], hx⟩
      · obtain ⟨b, hb, hxb⟩ := ih [] (Or.inr (by simpa [recvs] using hx))
        exact ⟨b, by simp [workerFlushes, hb], hxb⟩
    | recv m =>
      have hx' : x ∈ batch ++ [m] ∨ x ∈ recvs es := by
        rcases hx with hx | hx
        · exact Or.inl (List.mem_append.mpr (Or.inl hx))
        · have hx2 : x = m ∨ x ∈ recvs es := by simpa [recvs] using hx
          rcases hx2 with h | h
          · exact Or.inl (by simp [h])
          · exact Or.inr h
      obtain ⟨b, hb, hxb⟩ := ih (batch ++ [m]) hx'
      exact ⟨b, by simpa [workerFlushes] using hb, hxb⟩

/-- The worker trace is its flushes followed by the `done` signal. -/
theorem workerTraceAux_eq (es : List WEvent) (batch : List LogMsg) :
    workerTraceAux es batch
      = (workerFlushes es batch).map WorkerAction.flush ++ [WorkerAction.done] := by
  induction es generalizing batch with
  | nil => rfl
  | cons e es ih =>
    cases e with
    | tick => simp [workerTraceAux, workerFlushes, ih]
    | recv m => simp [workerTraceAux, workerFlushes, ih]

/-- C1: over any worker schedule, every message the channel accepted before
the close is contained in some batch passed to `writeLogMessages`, and the
worker's trace consists of those flushes followed by the `close(ld.done)`
signal on which `logDispatcher.close` blocks — so when `Close()` returns,
every accepted message was already flushed. -/
theorem close_flushes_all_accepted (es : List WEvent) (m : LogMsg)
    (hm : m ∈ recvs es) :
    (∃ b ∈ workerFlushes es [], m ∈ b) ∧
    workerTrace es
      = (workerFlushes es []).map WorkerAction.flush ++ [WorkerAction.done] :=
  ⟨workerFlushes_covers es [] m (Or.inr hm), workerTraceAux_eq es []⟩

/-- Witness for C1 at a concrete schedule: receive "a", tick, receive "b",
close. -/
theorem close_flushes_all_accepted_witness :
    (∃ b ∈ workerFlushes exEvents [], tsMsg 1 "a" ∈ b) ∧
    workerTrace exEvents
      = (workerFlushes exEvents []).map WorkerAction.flush ++ [WorkerAction.done] :=
  close_flushes_all_accepted exEvents (tsMsg 1 "a")
    (by simp [exEvents, recvs])

/-- C5: a message whose severity is strictly above `logMaxSeverity` and
whose non-empty type is not whitelisted is rejected with
`ErrSeverityAboveMax` before printing and before the queue: the queue is
unchanged, so no worker flush — and hence no sink write — can contain it. -/
theorem severity_reject_no_enqueue (cfg : Config) (queueCap : Nat)
    (queue : List LogMsg) (now : UTCTime) (msg : LogMsg)
    (hsev : msg.severity ≤ SeverityTrace)
    (habove : cfg.logMaxSeverity < msg.severity)
    (htype : msg.logMessageType ≠ "")
    (hwl : ¬cfg.isWhitelisted msg.logMessageType) :
    (logDispatch cfg queueCap queue now msg).result = .errSeverityAboveMax ∧
    (logDispatch cfg queueCap queue now msg).queue = queue ∧
    (logDispatch cfg queueCap queue now msg).console = none ∧
    (∀ es b x, recvs es = (logDispatch cfg queueCap queue now msg).queue →
        b ∈ workerFlushes es [] → x ∈ b → x ∈ queue) := by
  have hset : msg.setSeverity SeverityTrace = msg :=
    setSeverity_noop msg SeverityTrace (not_lt.mpr hsev)
  have hres : logDispatch cfg queueCap queue now msg
      = { result := .errSeverityAboveMax, msg := msg, queue := queue,
          console := none } := by
    unfold logDispatch
    simp only [hset]
    rw [if_pos ⟨habove, htype, hwl⟩]
  refine ⟨by rw [hres], by rw [hres], by rw [hres], ?_⟩
  intro es b x hrec hb hxb
  rcases workerFlushes_mem_source es [] b x hb hxb with h0 | h0
  · exact absurd h0 (List.not_mem_nil x)
  · rw [hrec, hres] at h0
    exact h0

/-- Witness for C5: `logMaxSeverity = Error(3)`, type `"x"` not
whitelisted, severity Warning (4). -/
theorem severity_reject_no_enqueue_witness :
    (logDispatch exCfg 8 [] exNow c5Msg).result = .errSeverityAboveMax ∧
    (logDispatch exCfg 8 [] exNow c5Msg).queue = [] ∧
    (logDispatch exCfg 8 [] exNow c5Msg).console = none ∧
    (∀ es b x, recvs es = (logDispatch exCfg 8 [] exNow c5Msg).queue →
        b ∈ workerFlushes es [] → x ∈ b → x ∈ ([] : List LogMsg)) :=
  severity_reject_no_enqueue exCfg 8 [] exNow c5Msg (by decide) (by decide)
    (by decide) (by decide)

/-- C9: a message with empty type never gets `ErrSeverityAboveMax`: the
rejection branch requires a non-empty type, so the message proceeds to
console printing and to the enqueue attempt regardless of its severity. -/
theorem empty_type_never_severity_rejected (cfg : Config) (queueCap : Nat)
    (queue : List LogMsg) (now : UTCTime) (msg : LogMsg)
    (htype : msg.logMessageType = "") :
    (logDispatch cfg queueCap queue now msg).result ≠ .errSeverityAboveMax ∧
    (logDispatch cfg queueCap queue now msg).console
      = printLogMsg cfg (prePrintMsg now (msg.setSeverity SeverityTrace)) ∧
    (queue.length < queueCap →
      (logDispatch cfg queueCap queue now msg).result = .ok ∧
      (logDispatch cfg queueCap queue now msg).queue
        = queue ++ [preparedMsg now (msg.setSeverity SeverityTrace)]) ∧
    (¬queue.length < queueCap →
      (logDispatch cfg queueCap queue now msg).result = .errChannelFull) := by
  have hcond : ¬((msg.setSeverity SeverityTrace).severity > cfg.logMaxSeverity ∧
      (msg.setSeverity SeverityTrace).logMessageType ≠ "" ∧
      ¬cfg.isWhitelisted (msg.setSeverity SeverityTrace).logMessageType) := by
    intro hc
    exact hc.2.1 (by rw [(setSeverity_fields msg SeverityTrace).1, htype])
  by_cases hq : queue.length < queueCap
  · have hres : logDispatch cfg queueCap queue now msg
        = { result := .ok, msg := preparedMsg now (msg.setSeverity SeverityTrace),
            queue := queue ++ [preparedMsg now (msg.setSeverity SeverityTrace)],
            console := printLogMsg cfg (prePrintMsg now (msg.setSeverity SeverityTrace)) } := by
      unfold logDispatch
      rw [if_neg hcond, if_pos hq]
    refine ⟨?_, ?_, ?_, ?_⟩
    · rw [hres]; intro h; cases h
    · rw [hres]
    · intro _
      rw [hres]
      exact ⟨rfl, rfl⟩
    · intro hq'
      exact absurd hq hq'
  · have hres : logDispatch cfg queueCap queue now msg
        = { result := .errChannelFull,
            msg := preparedMsg now (msg.setSeverity SeverityTrace), queue := queue,
            console := printLogMsg cfg (prePrintMsg now (msg.setSeverity SeverityTrace)) } := by
      unfold logDispatch
      rw [if_neg hcond, if_neg hq]
    refine ⟨?_, ?_, ?_, ?_⟩
    · rw [hres]; intro h; cases h
    · rw [hres]
    · intro hq'
      exact absurd hq' hq
    · intro _
      rw [hres]

/-- Witness for C9: an empty-type message of severity Warning (above the
Error threshold of `exCfg`) is accepted into an empty queue. -/
theorem empty_type_never_severity_rejected_witness :
    (logDispatch exCfg 8 [] exNow c9Msg).result ≠ .errSeverityAboveMax ∧
    (logDispatch exCfg 8 [] exNow c9Msg).console
      = printLogMsg exCfg (prePrintMsg exNow (c9Msg.setSeverity SeverityTrace)) ∧
    (([] : List LogMsg).length < 8 →
      (logDispatch exCfg 8 [] exNow c9Msg).result = .ok ∧
      (logDispatch exCfg 8 [] exNow c9Msg).queue
        = [] ++ [preparedMsg exNow (c9Msg.setSeverity SeverityTrace)]) ∧
    (¬([] : List LogMsg).length < 8 →
      (logDispatch exCfg 8 [] exNow c9Msg).result = .errChannelFull) :=
  empty_type_never_severity_rejected exCfg 8 [] exNow c9Msg (by decide)

/-- C6: when the bounded queue is full and the message passed the log
threshold, the entry point returns `ErrChannelFull` with the queue (and
thus all future flushes) unchanged, the overflow counter is incremented,
and the overflow callback is invoked once with the dropped message and the
new counter value. -/
theorem queue_full_drop_overflow (cfg : Config) (queueCap : Nat)
    (queue : List LogMsg) (now : UTCTime) (msg : LogMsg) (counter : Nat)
    (hfull : ¬queue.length < queueCap)
    (hnot : (logDispatch cfg queueCap queue now msg).result ≠ .errSeverityAboveMax) :
    (logWithOverflow cfg queueCap queue now msg counter).1.result = .errChannelFull ∧
    (logWithOverflow cfg queueCap queue now msg counter).1.queue = queue ∧
    (logWithOverflow cfg queueCap queue now msg counter).2.1 = counter + 1 ∧
    (logWithOverflow cfg queueCap queue now msg counter).2.2
      = [((logWithOverflow cfg queueCap queue now msg counter).1.msg, counter + 1)] := by
  by_cases hc : (msg.setSeverity SeverityTrace).severity > cfg.logMaxSeverity ∧
      (msg.setSeverity SeverityTrace).logMessageType ≠ "" ∧
      ¬cfg.isWhitelisted (msg.setSeverity SeverityTrace).logMessageType
  · exfalso
    apply hnot
    unfold logDispatch
    rw [if_pos hc]
  · have hres : logDispatch cfg queueCap queue now msg
        = { result := .errChannelFull,
            msg := preparedMsg now (msg.setSeverity SeverityTrace), queue := queue,
            console := printLogMsg cfg (prePrintMsg now (msg.setSeverity SeverityTrace)) } := by
      unfold logDispatch
      rw [if_neg hc, if_neg hfull]
    unfold logWithOverflow
    rw [hres]
    exact ⟨rfl, rfl, rfl, rfl⟩

/-- Witness for C6: capacity 1, one queued message, an accepted-severity
message dropped with counter going from 0 to 1. -/
theorem queue_full_drop_overflow_witness :
    (logWithOverflow exCfg 1 [tsMsg 0 "q"] exNow c6Msg 0).1.result = .errChannelFull ∧
    (logWithOverflow exCfg 1 [tsMsg 0 "q"] exNow c6Msg 0).1.queue = [tsMsg 0 "q"] ∧
    (logWithOverflow exCfg 1 [tsMsg 0 "q"] exNow c6Msg 0).2.1 = 0 + 1 ∧
    (logWithOverflow exCfg 1 [tsMsg 0 "q"] exNow c6Msg 0).2.2
      = [((logWithOverflow exCfg 1 [tsMsg 0 "q"] exNow c6Msg 0).1.msg, 0 + 1)] :=
  queue_full_drop_overflow exCfg 1 [tsMsg 0 "q"] exNow c6Msg 0 (by decide) (by decide)

/-- Writing a key makes it readable. -/
theorem getProp_setProp_self (props : List (String × Val)) (k : String) (v : Val) :
    getProp (setProp props k v) k = some v := by
  unfold setProp
  split
  next h =>
    induction props with
    | nil => simp at h
    | cons a rest ih =>
      by_cases ha : a.1 = k
      · simp [getProp, ha]
      · have h' : rest.any (fun p => p.1 = k) = true := by
          simpa [List.any_cons, ha] using h
        simp [getProp, ha, ih h']
  next h =>
    induction props with
    | nil => simp [getProp]
    | cons a rest ih =>
      have ha : ¬(a.1 = k) := by
        intro hh
        exact h (by simp [List.any_cons, hh])
      have h' : ¬(rest.any (fun p => p.1 = k) = true) := by
        intro hh
        exact h (by simp [List.any_cons, hh])
      simp [getProp, ha, ih h']

/-- Writing a key leaves every other key unchanged. -/
theorem getProp_setProp_ne (props : List (String × Val)) (k k' : String) (v : Val)
    (h : k' ≠ k) : getProp (setProp props k v) k' = getProp props k' := by
  have hkk : ¬(k = k') := fun hh => h hh.symm
  unfold setProp
  split
  next hany =>
    clear hany
    induction props with
    | nil => rfl
    | cons a rest ih =>
      by_cases ha : a.1 = k
      · have ha' : ¬(a.1 = k') := by rw [ha]; exact hkk
        simp [getProp, ha, ha', hkk, ih]
      · by_cases ha2 : a.1 = k'
        · simp [getProp, ha, ha2, hkk, h]
        · simp [getProp, ha, ha2, hkk, h, ih]
  next hany =>
    clear hany
    induction props with
    | nil => simp [getProp, hkk]
    | cons a rest ih =>
      by_cases ha2 : a.1 = k'
      · simp [getProp, ha2]
      · simp [getProp, ha2, ih]

/-- Filtering with a predicate that keeps key `k` preserves its lookup. -/
theorem getProp_filter_keep (props : List (String × Val)) (P : String × Val → Bool)
    (k : String) (hP : ∀ v, P (k, v) = true) :
    getProp (props.filter P) k = getProp props k := by
  induction props with
  | nil => rfl
  | cons a rest ih =>
    by_cases ha : a.1 = k
    · have hPa : P a = true := by
        obtain ⟨a1, a2⟩ := a
        have ha' : a1 = k := ha
        subst ha'
        exact hP a2
      simp [List.filter_cons, hPa, getProp, ha]
    · by_cases hPa : P a = true
      · simp [List.filter_cons, hPa, getProp, ha, ih]
      · simp [List.filter_cons, hPa, getProp, ha, ih]

/-- Filtering with a predicate that drops key `k` erases its lookup. -/
theorem getProp_filter_drop (props : List (String × Val)) (P : String × Val → Bool)
    (k : String) (hP : ∀ v, P (k, v) = false) :
    getProp (props.filter P) k = none := by
  induction props with
  | nil => rfl
  | cons a rest ih =>
    by_cases ha : a.1 = k
    · have hPa : P a = false := by
        obtain ⟨a1, a2⟩ := a
        have ha' : a1 = k := ha
        subst ha'
        exact hP a2
      simp [List.filter_cons, hPa, ih]
    · by_cases hPa : P a = true
      · simp [List.filter_cons, hPa, getProp, ha, ih]
      · simp [List.filter_cons, hPa, ih]

/-- Reserved keys survive the marshal-time redaction. -/
theorem getProp_marshalProps_reserved (cfg : Config) (props : List (String × Val))
    (k : String) (hk : k ∈ reservedKeys) :
    getProp (marshalProps cfg props) k = getProp props k := by
  unfold marshalProps
  split
  · rfl
  · exact getProp_filter_keep props _ k (fun v => by simp [hk])

/-- With a non-empty whitelist, a key neither whitelisted nor reserved is
erased by the marshal-time redaction. -/
theorem getProp_marshalProps_absent (cfg : Config) (props : List (String × Val))
    (k : String) (hwl : cfg.whitelistedProperties ≠ [])
    (hk1 : k ∉ cfg.whitelistedProperties)
    (hk2 : k ∉ reservedKeys) :
    getProp (marshalProps cfg props) k = none := by
  have hne : cfg.whitelistedProperties.isEmpty = false := by
    rcases hl : cfg.whitelistedProperties with _ | ⟨a, as⟩
    · exact absurd hl hwl
    · rfl
  unfold marshalProps
  rw [if_neg (by simp [hne])]
  exact getProp_filter_drop props _ k (fun v => by simp [hk1, hk2])

/-- `stampMsg` changes only the timestamp, and only when it was zero. -/
theorem stampMsg_fields (now : UTCTime) (m : LogMsg) :
    (stampMsg now m).output = m.output ∧
    (stampMsg now m).logMessageType = m.logMessageType ∧
    (stampMsg now m).severity = m.severity ∧
    (stampMsg now m).trackingID = m.trackingID ∧
    (stampMsg now m).properties = m.properties ∧
    (stampMsg now m).timestamp = (if m.timestamp.isZero then now else m.timestamp) := by
  unfold stampMsg
  split <;> simp_all

/-- `reservedPropsMsg` changes only the property map. -/
theorem reservedPropsMsg_fields (m : LogMsg) :
    (reservedPropsMsg m).output = m.output ∧
    (reservedPropsMsg m).logMessageType = m.logMessageType ∧
    (reservedPropsMsg m).severity = m.severity ∧
    (reservedPropsMsg m).timestamp = m.timestamp := by
  unfold reservedPropsMsg
  dsimp only
  split <;> simp

/-- The reserved keys written by `reservedPropsMsg`, and the survival of
any other key's lookup. -/
theorem reservedPropsMsg_getProp (m : LogMsg) :
    getProp (reservedPropsMsg m).properties "type" = some (.vStr m.logMessageType) ∧
    (getProp (reservedPropsMsg m).properties "timestamp").isSome = true ∧
    (getProp (reservedPropsMsg m).properties "severity").isSome = true := by
  unfold reservedPropsMsg
  dsimp only
  split
  · refine ⟨?_, ?_, ?_⟩
    · rw [getProp_setProp_ne _ _ _ _ (by decide), getProp_setProp_ne _ _ _ _ (by decide),
        getProp_setProp_ne _ _ _ _ (by decide), getProp_setProp_self]
    · rw [getProp_setProp_ne _ _ _ _ (by decide), getProp_setProp_ne _ _ _ _ (by decide),
        getProp_setProp_self]
      rfl
    · rw [getProp_setProp_ne _ _ _ _ (by decide), getProp_setProp_self]
      rfl
  · refine ⟨?_, ?_, ?_⟩
    · rw [getProp_setProp_ne _ _ _ _ (by decide), getProp_setProp_ne _ _ _ _ (by decide),
        getProp_setProp_self]
    · rw [getProp_setProp_ne _ _ _ _ (by decide), getProp_setProp_self]
      rfl
    · rw [getProp_setProp_self]
      rfl

/-- `preparedMsg` preserves the output lines. -/
theorem preparedMsg_output (now : UTCTime) (m : LogMsg) :
    (preparedMsg now m).output = m.output := by
  unfold preparedMsg prePrintMsg
  dsimp only
  rw [(reservedPropsMsg_fields _).1, (stampMsg_fields now m).1]

/-- `preparedMsg` assigns `now` exactly when the timestamp was unset. -/
theorem preparedMsg_timestamp (now : UTCTime) (m : LogMsg) :
    (preparedMsg now m).timestamp = (if m.timestamp.isZero then now else m.timestamp) := by
  unfold preparedMsg prePrintMsg
  dsimp only
  rw [(reservedPropsMsg_fields _).2.2.2, (stampMsg_fields now m).2.2.2.2.2]

/-- The payload keys of a prepared message: `output` holds the message's
output array; `type`, `timestamp` and `severity` are present. -/
theorem preparedMsg_getProp (now : UTCTime) (m : LogMsg) :
    getProp (preparedMsg now m).properties "output" = some (.vStrList m.output) ∧
    getProp (preparedMsg now m).properties "type" = some (.vStr m.logMessageType) ∧
    (getProp (preparedMsg now m).properties "timestamp").isSome = true ∧
    (getProp (preparedMsg now m).properties "severity").isSome = true := by
  unfold preparedMsg prePrintMsg
  dsimp only
  have hsf := stampMsg_fields now m
  have hrf := reservedPropsMsg_fields (stampMsg now m)
  have hrp := reservedPropsMsg_getProp (stampMsg now m)
  refine ⟨?_, ?_, ?_, ?_⟩
  · rw [getProp_setProp_self, hrf.1, hsf.1]
  · rw [getProp_setProp_ne _ _ _ _ (by decide), hrp.1, hsf.2.1]
  · rw [getProp_setProp_ne _ _ _ _ (by decide)]
    exact hrp.2.1
  · rw [getProp_setProp_ne _ _ _ _ (by decide)]
    exact hrp.2.2

/-- When not rejected, the returned/enqueued message is `preparedMsg` of
the Trace-escalated input. -/
theorem logDispatch_msg_not_rejected (cfg : Config) (queueCap : Nat)
    (queue : List LogMsg) (now : UTCTime) (lm : LogMsg)
    (h : (logDispatch cfg queueCap queue now lm).result ≠ .errSeverityAboveMax) :
    (logDispatch cfg queueCap queue now lm).msg
      = preparedMsg now (lm.setSeverity SeverityTrace) := by
  unfold logDispatch at h ⊢
  by_cases hc : (lm.setSeverity SeverityTrace).severity > cfg.logMaxSeverity ∧
      (lm.setSeverity SeverityTrace).logMessageType ≠ "" ∧
      ¬cfg.isWhitelisted (lm.setSeverity SeverityTrace).logMessageType
  · rw [if_pos hc] at h
    exact absurd rfl h
  · rw [if_neg hc]
    split <;> rfl

/-- C4: when the property whitelist is non-empty, the payload marshalled
for the sinks drops every caller key outside the whitelist and the five
reserved keys; the reserved keys are retained for a delivered message; and
the whole `log` outcome — console output included — is independent of the
whitelist, which acts only at marshal time. -/
theorem whitelist_redaction (cfg : Config) (queueCap : Nat) (queue : List LogMsg)
    (now : UTCTime) (msg : LogMsg) (k : String)
    (hwl : cfg.whitelistedProperties ≠ [])
    (hk1 : k ∉ cfg.whitelistedProperties)
    (hk2 : k ∉ reservedKeys) :
    getProp (marshalProps cfg (logDispatch cfg queueCap queue now msg).msg.properties) k
      = none ∧
    ((logDispatch cfg queueCap queue now msg).result ≠ .errSeverityAboveMax →
      (getProp (marshalProps cfg
          (logDispatch cfg queueCap queue now msg).msg.properties) "type").isSome = true ∧
      (getProp (marshalProps cfg
          (logDispatch cfg queueCap queue now msg).msg.properties) "timestamp").isSome = true ∧
      (getProp (marshalProps cfg
          (logDispatch cfg queueCap queue now msg).msg.properties) "severity").isSome = true ∧
      (getProp (marshalProps cfg
          (logDispatch cfg queueCap queue now msg).msg.properties) "output").isSome = true) ∧
    (∀ wl', logDispatch { cfg with whitelistedProperties := wl' } queueCap queue now msg
        = logDispatch cfg queueCap queue now msg) := by
  refine ⟨getProp_marshalProps_absent cfg _ k hwl hk1 hk2, ?_, fun wl' => rfl⟩
  intro h
  rw [logDispatch_msg_not_rejected cfg queueCap queue now msg h]
  have hp := preparedMsg_getProp now (msg.setSeverity SeverityTrace)
  refine ⟨?_, ?_, ?_, ?_⟩
  · rw [getProp_marshalProps_reserved cfg _ _ (by decide), hp.2.1]
    rfl
  · rw [getProp_marshalProps_reserved cfg _ _ (by decide)]
    exact hp.2.2.1
  · rw [getProp_marshalProps_reserved cfg _ _ (by decide)]
    exact hp.2.2.2
  · rw [getProp_marshalProps_reserved cfg _ _ (by decide), hp.1]
    rfl

/-- Witness for C4: `whitelistedProperties = {"foo"}`, message with
properties `foo` and `bar` — `bar` is absent from the payload. -/
theorem whitelist_redaction_witness :
    getProp (marshalProps exCfgWl
        (logDispatch exCfgWl 8 [] exNow c4Msg).msg.properties) "bar" = none ∧
    ((logDispatch exCfgWl 8 [] exNow c4Msg).result ≠ .errSeverityAboveMax →
      (getProp (marshalProps exCfgWl
          (logDispatch exCfgWl 8 [] exNow c4Msg).msg.properties) "type").isSome = true ∧
      (getProp (marshalProps exCfgWl
          (logDispatch exCfgWl 8 [] exNow c4Msg).msg.properties) "timestamp").isSome = true ∧
      (getProp (marshalProps exCfgWl
          (logDispatch exCfgWl 8 [] exNow c4Msg).msg.properties) "severity").isSome = true ∧
      (getProp (marshalProps exCfgWl
          (logDispatch exCfgWl 8 [] exNow c4Msg).msg.properties) "output").isSome = true) ∧
    (∀ wl', logDispatch { exCfgWl with whitelistedProperties := wl' } 8 [] exNow c4Msg
        = logDispatch exCfgWl 8 [] exNow c4Msg) :=
  whitelist_redaction exCfgWl 8 [] exNow c4Msg "bar" (by decide) (by decide) (by decide)

/-- Below the print gate (and with no whitelist), an append-output call is
exactly the severity escalation: the message is otherwise untouched. -/
theorem appendOutput_gated (cfg : Config) (lm : LogMsg) (s : Severity)
    (values : List String) (cs : CallSite) (h4 : values ≠ [])
    (h1 : ¬cfg.meetsPrintMaxSeverity s)
    (h2 : ¬cfg.isWhitelisted lm.logMessageType)
    (h3 : lm.whitelisted = false) :
    lm.appendOutput cfg s values cs = lm.setSeverity s := by
  unfold LogMsg.appendOutput
  have hlen : ¬values.length ≤ 0 := by
    simpa [Nat.pos_iff_ne_zero, List.length_eq_zero] using h4
  rw [if_neg hlen]
  rw [if_pos]
  exact ⟨h1, by rw [(setSeverity_fields lm s).1]; exact h2,
    by rw [(setSeverity_fields lm s).2.1]; exact h3⟩

/-- C10: an append-output call whose level misses the print threshold, on a
message of non-whitelisted type carrying no whitelist flag, escalates
severity but leaves the output sequence unchanged — so the suppressed lines
are absent both from the console and from the `output` array of the payload
later delivered to sinks. -/
theorem suppressed_output_frame (cfg : Config) (msg : LogMsg) (sev : Severity)
    (values : List String) (cs : CallSite) (queueCap : Nat) (queue : List LogMsg)
    (now : UTCTime)
    (h1 : ¬cfg.meetsPrintMaxSeverity sev)
    (h2 : ¬cfg.isWhitelisted msg.logMessageType)
    (h3 : msg.whitelisted = false)
    (h4 : values ≠ []) :
    (msg.appendOutput cfg sev values cs).output = msg.output ∧
    (msg.appendOutput cfg sev values cs).severity = min msg.severity sev ∧
    ((logDispatch cfg queueCap queue now (msg.appendOutput cfg sev values cs)).result
        ≠ .errSeverityAboveMax →
      getProp (marshalProps cfg
          (logDispatch cfg queueCap queue now
            (msg.appendOutput cfg sev values cs)).msg.properties) "output"
        = some (.vStrList msg.output)) := by
  have hg := appendOutput_gated cfg msg sev values cs h4 h1 h2 h3
  refine ⟨by rw [hg, (setSeverity_fields msg sev).2.2.1],
    appendOutput_severity cfg msg sev values cs h4, ?_⟩
  intro h
  rw [logDispatch_msg_not_rejected cfg queueCap queue now _ h]
  rw [getProp_marshalProps_reserved cfg _ _ (by decide)]
  rw [(preparedMsg_getProp now _).1]
  rw [(setSeverity_fields _ _).2.2.1, hg, (setSeverity_fields msg sev).2.2.1]

/-- Witness for C10: print gate at Error, Warning append with one line on a
type-"x" message — output stays empty, severity escalates to 4. -/
theorem suppressed_output_frame_witness :
    ((newLogMsg "x").appendOutput c10Cfg SeverityWarning ["hidden"] exSite).output
        = (newLogMsg "x").output ∧
    ((newLogMsg "x").appendOutput c10Cfg SeverityWarning ["hidden"] exSite).severity
        = min (newLogMsg "x").severity SeverityWarning ∧
    ((logDispatch c10Cfg 8 [] exNow
        ((newLogMsg "x").appendOutput c10Cfg SeverityWarning ["hidden"] exSite)).result
        ≠ .errSeverityAboveMax →
      getProp (marshalProps c10Cfg
          (logDispatch c10Cfg 8 [] exNow
            ((newLogMsg "x").appendOutput c10Cfg SeverityWarning ["hidden"] exSite)).msg.properties)
        "output" = some (.vStrList (newLogMsg "x").output)) :=
  suppressed_output_frame c10Cfg (newLogMsg "x") SeverityWarning ["hidden"] exSite 8 [] exNow
    (by decide) (by decide) (by decide) (by decide)

/-- C8 (code bug): at dispatch time an unset timestamp is assigned the
current time (last conjunct, evaluated at a concrete message), but the wire
form keeps MICROsecond precision with trailing zeros trimmed — the layout
is `.999999` — rather than the millisecond truncation required by the spec
and by the `UTCTime` comment ("limited to 3 decimals"): 123456789ns
serializes as `.123456`, not `.123`; 120ms serializes as `.12`. -/
theorem utctime_marshal_microseconds :
    UTCTime.marshalJSON ⟨2020, 1, 2, 3, 4, 5, 123456789⟩
        = "\"2020-01-02T03:04:05.123456Z\"" ∧
    UTCTime.marshalJSON ⟨2020, 1, 2, 3, 4, 5, 123456789⟩
        ≠ "\"2020-01-02T03:04:05.123Z\"" ∧
    UTCTime.marshalJSON ⟨2021, 12, 31, 23, 59, 59, 120000000⟩
        = "\"2021-12-31T23:59:59.12Z\"" ∧
    (preparedMsg exNow (newLogMsg "x")).timestamp = exNow :=
  ⟨by decide, by decide, by decide, by decide⟩

/-- Every write action the flush loop emits carries the same delivered
arrays that were passed in. -/
theorem flushWritersAux_write_payload (raws : List (List (String × Val)))
    (ts : List UTCTime) (i : Nat) (ws : List (Option Writer)) (j : Nat)
    (raws' : List (List (String × Val))) (ts' : List UTCTime)
    (ha : WAction.write j raws' ts' ∈ (flushWritersAux raws ts i ws).2) :
    raws' = raws ∧ ts' = ts := by
  induction ws generalizing i with
  | nil => simp [flushWritersAux] at ha
  | cons w rest ih =>
    have ha' : WAction.write j raws' ts' ∈ (writerStep i raws ts w).2 ∨
        WAction.write j raws' ts' ∈ (flushWritersAux raws ts (i + 1) rest).2 := by
      simpa [flushWritersAux] using ha
    rcases ha' with ha' | ha'
    · cases w with
      | none => simp [writerStep] at ha'
      | some wr =>
        by_cases hd : wr.resp raws ts = WResp.disable
        · simp [writerStep, hd] at ha'
          exact ⟨ha'.2.1, ha'.2.2⟩
        · simp [writerStep, hd] at ha'
          exact ⟨ha'.2.1, ha'.2.2⟩
    · exact ih (i + 1) ha'

/-- C2 (amended): the flush reorders the batch into some arrangement
satisfying the `sort.Slice` contract — a permutation sorted by the
timestamp comparator — and delivers it to every writer: no message is lost
by the sort, every write action carries exactly the delivered arrays, and
the delivered timestamps array is non-decreasing.  The order of
equal-timestamp messages is NOT specified: `sort.Slice` is not stable. -/
theorem flush_timestamps_nondecreasing (cfg : Config) (ws : List (Option Writer))
    (batch sorted : List LogMsg) (hsort : sortSliceOK tsLess batch sorted) :
    sorted.Perm batch ∧
    (deliveredArrays cfg sorted).2 = sorted.map (fun m => m.timestamp) ∧
    List.Chain' (fun a b => UTCTime.before b a = false) (deliveredArrays cfg sorted).2 ∧
    (∀ j raws' ts', WAction.write j raws' ts' ∈ (writeLogMessagesWith cfg ws batch sorted).2 →
        raws' = (deliveredArrays cfg sorted).1 ∧ ts' = (deliveredArrays cfg sorted).2) := by
  obtain ⟨hperm, hpair⟩ := hsort
  refine ⟨hperm, rfl, ?_, ?_⟩
  · have hmap : List.Pairwise (fun a b => UTCTime.before b a = false)
        (sorted.map (fun m => m.timestamp)) := by
      refine List.Pairwise.map _ ?_ hpair
      intro a b hab
      exact hab
    exact hmap.chain'
  · intro j raws' ts' ha
    unfold writeLogMessagesWith at ha
    split at ha
    · simp at ha
    · exact flushWritersAux_write_payload _ _ 0 ws j raws' ts' ha

set_option maxHeartbeats 2000000 in
/-- Witness for the amended C2 at the concrete batch `c2Batch` with the
arrangement actually produced by the embedded `sort.Slice` algorithm. -/
theorem flush_timestamps_nondecreasing_witness :
    (goSortSlice tsLess c2Batch).Perm c2Batch ∧
    (deliveredArrays exCfg (goSortSlice tsLess c2Batch)).2
      = (goSortSlice tsLess c2Batch).map (fun m => m.timestamp) ∧
    List.Chain' (fun a b => UTCTime.before b a = false)
      (deliveredArrays exCfg (goSortSlice tsLess c2Batch)).2 ∧
    (∀ j raws' ts', WAction.write j raws' ts'
          ∈ (writeLogMessagesWith exCfg [some exWriterOk] c2Batch
              (goSortSlice tsLess c2Batch)).2 →
        raws' = (deliveredArrays exCfg (goSortSlice tsLess c2Batch)).1 ∧
        ts' = (deliveredArrays exCfg (goSortSlice tsLess c2Batch)).2) :=
  flush_timestamps_nondecreasing exCfg [some exWriterOk] c2Batch
    (goSortSlice tsLess c2Batch) (by constructor <;> decide)

/-- Every action `writerStep` emits concerns its own slot. -/
theorem writerStep_slots (i : Nat) (raws : List (List (String × Val)))
    (ts : List UTCTime) (w : Option Writer) :
    ∀ a ∈ (writerStep i raws ts w).2, a.slot = i := by
  intro a ha
  cases w with
  | none => simp [writerStep] at ha
  | some wr =>
    by_cases hd : wr.resp raws ts = WResp.disable
    · simp [writerStep, hd] at ha
      rcases ha with h | h <;> subst h <;> rfl
    · simp [writerStep, hd] at ha
      subst ha
      rfl

/-- Slots of the flush loop's actions lie in `[i, i + length)`. -/
theorem flushWritersAux_slot_range (raws : List (List (String × Val)))
    (ts : List UTCTime) (i : Nat) (ws : List (Option Writer)) :
    ∀ a ∈ (flushWritersAux raws ts i ws).2, i ≤ a.slot ∧ a.slot < i + ws.length := by
  induction ws generalizing i with
  | nil => intro a ha; simp [flushWritersAux] at ha
  | cons w rest ih =>
    intro a ha
    have ha' : a ∈ (writerStep i raws ts w).2 ∨
        a ∈ (flushWritersAux raws ts (i + 1) rest).2 := by
      simpa [flushWritersAux] using ha
    simp only [List.length_cons]
    rcases ha' with h | h
    · rw [writerStep_slots i raws ts w a h]
      omega
    · have := ih (i + 1) a h
      omega

/-- The flush loop returns a registry of the same length. -/
theorem flushWritersAux_length (raws : List (List (String × Val)))
    (ts : List UTCTime) (i : Nat) (ws : List (Option Writer)) :
    (flushWritersAux raws ts i ws).1.length = ws.length := by
  induction ws generalizing i with
  | nil => rfl
  | cons w rest ih => simp [flushWritersAux, ih]

/-- The flush loop updates slot `j` by `writerStep` on that slot alone. -/
theorem flushWritersAux_getD (raws : List (List (String × Val)))
    (ts : List UTCTime) (i : Nat) (ws : List (Option Writer)) (j : Nat)
    (hj : j < ws.length) :
    (flushWritersAux raws ts i ws).1.getD j none
      = (writerStep (i + j) raws ts (ws.getD j none)).1 := by
  induction ws generalizing i j with
  | nil => simp at hj
  | cons w rest ih =>
    cases j with
    | zero => simp [flushWritersAux]
    | succ j =>
      have hj' : j < rest.length := by simpa using hj
      have h2 := ih (i + 1) j hj'
      have harith : i + 1 + j = i + (j + 1) := by omega
      rw [harith] at h2
      simpa [flushWritersAux] using h2

/-- The flush loop's actions for slot `i + j` are exactly the `writerStep`
actions of that slot. -/
theorem eventsFor_flushWritersAux (raws : List (List (String × Val)))
    (ts : List UTCTime) (i : Nat) (ws : List (Option Writer)) (j : Nat)
    (hj : j < ws.length) :
    eventsFor (i + j) (flushWritersAux raws ts i ws).2
      = (writerStep (i + j) raws ts (ws.getD j none)).2 := by
  induction ws generalizing i j with
  | nil => simp at hj
  | cons w rest ih =>
    have hsplit : (flushWritersAux raws ts i (w :: rest)).2
        = (writerStep i raws ts w).2 ++ (flushWritersAux raws ts (i + 1) rest).2 := rfl
    cases j with
    | zero =>
      unfold eventsFor
      rw [hsplit, List.filter_append]
      have h1 : (writerStep i raws ts w).2.filter (fun a => a.slot = i + 0)
          = (writerStep i raws ts w).2 := by
        apply List.filter_eq_self.mpr
        intro a ha
        simp [writerStep_slots i raws ts w a ha]
      have h2 : (flushWritersAux raws ts (i + 1) rest).2.filter (fun a => a.slot = i + 0)
          = [] := by
        apply List.filter_eq_nil.mpr
        intro a ha
        have := (flushWritersAux_slot_range raws ts (i + 1) rest a ha).1
        simp
        omega
      rw [h1, h2, List.append_nil]
      all_goals simp
    | succ j =>
      unfold eventsFor
      rw [hsplit, List.filter_append]
      have h1 : (writerStep i raws ts w).2.filter (fun a => a.slot = i + (j + 1))
          = [] := by
        apply List.filter_eq_nil.mpr
        intro a ha
        rw [writerStep_slots i raws ts w a ha]
        simp
      have hj' : j < rest.length := by simpa using hj
      have h2 := ih (i + 1) j hj'
      have harith : i + 1 + j = i + (j + 1) := by omega
      rw [harith] at h2
      unfold eventsFor at h2
      rw [h1, List.nil_append, h2]
      all_goals simp [List.getD_cons_succ]

/-- A disabled slot stays disabled and silent through any flush sequence. -/
theorem slotRun_none (cfg : Config) (i : Nat)
    (fs : List (List LogMsg × List LogMsg)) :
    slotRun cfg i none fs = (none, fs.map (fun _ => [])) := by
  induction fs with
  | nil => rfl
  | cons f rest ih =>
    obtain ⟨b, s⟩ := f
    by_cases hb : b.length ≤ 0
    · simp [slotRun, hb, ih]
    · simp [slotRun, hb, writerStep, ih]

/-- A slot that never hits the disable condition stays registered and is
written to on every nonempty flush. -/
theorem slotRun_alive (cfg : Config) (i : Nat) (w : Writer)
    (pre : List (List LogMsg × List LogMsg))
    (halive : ∀ p ∈ pre, p.1 = [] ∨
        w.resp (deliveredArrays cfg p.2).1 (deliveredArrays cfg p.2).2 ≠ .disable) :
    slotRun cfg i (some w) pre
      = (some w, pre.map (fun p => if p.1.length ≤ 0 then [] else
          [WAction.write i (deliveredArrays cfg p.2).1 (deliveredArrays cfg p.2).2])) := by
  revert halive
  induction pre with
  | nil => intro _; rfl
  | cons p rest ih =>
    intro halive
    obtain ⟨b, s⟩ := p
    have hrest := ih (fun q hq => halive q (List.mem_cons_of_mem _ hq))
    by_cases hb : b.length ≤ 0
    · have hb0 : b = [] := by simpa using hb
      simp [slotRun, hb, hb0, hrest]
    · have hb0 : ¬(b = []) := by
        intro hh
        rw [hh] at hb
        simp at hb
      have hd : w.resp (deliveredArrays cfg s).1 (deliveredArrays cfg s).2 ≠ .disable := by
        rcases halive (b, s) (List.mem_cons_self _ _) with h | h
        · exact absurd (h : b = []) hb0
        · exact h
      simp [slotRun, hb, hb0, writerStep, hd, hrest]

/-- A live slot hit by the disable condition on a nonempty flush is written
to, closed, and silent ever after. -/
theorem slotRun_disable (cfg : Config) (i : Nat) (w : Writer)
    (b : List LogMsg) (s : List LogMsg) (rest : List (List LogMsg × List LogMsg))
    (hb : ¬b.length ≤ 0)
    (hd : w.resp (deliveredArrays cfg s).1 (deliveredArrays cfg s).2 = .disable) :
    slotRun cfg i (some w) ((b, s) :: rest)
      = (none, [WAction.write i (deliveredArrays cfg s).1 (deliveredArrays cfg s).2,
          WAction.closeWriter i] :: rest.map (fun _ => [])) := by
  simp [slotRun, hb, writerStep, hd, slotRun_none]

/-- `slotRun` over an appended flush sequence. -/
theorem slotRun_append (cfg : Config) (i : Nat) (w : Option Writer)
    (l₁ l₂ : List (List LogMsg × List LogMsg)) :
    slotRun cfg i w (l₁ ++ l₂)
      = ((slotRun cfg i (slotRun cfg i w l₁).1 l₂).1,
         (slotRun cfg i w l₁).2 ++ (slotRun cfg i (slotRun cfg i w l₁).1 l₂).2) := by
  induction l₁ generalizing w with
  | nil => simp [slotRun]
  | cons f rest ih =>
    obtain ⟨b, s⟩ := f
    by_cases hb : b.length ≤ 0
    · simp [slotRun, hb, ih]
    · simp [slotRun, hb, ih]

/-- Each registry slot evolves under `runFlushes` as a function of its own
initial writer and the flush sequence alone: its final state and its
per-flush actions are those of `slotRun`. -/
theorem runFlushes_slot (cfg : Config) (fs : List (List LogMsg × List LogMsg))
    (ws : List (Option Writer)) (j : Nat) (hj : j < ws.length) :
    (runFlushes cfg ws fs).1.getD j none = (slotRun cfg j (ws.getD j none) fs).1 ∧
    (runFlushes cfg ws fs).2.map (eventsFor j) = (slotRun cfg j (ws.getD j none) fs).2 := by
  induction fs generalizing ws with
  | nil => exact ⟨rfl, rfl⟩
  | cons f rest ih =>
    obtain ⟨b, s⟩ := f
    by_cases hb : b.length ≤ 0
    · have hwlm : writeLogMessagesWith cfg ws b s = (ws, []) := by
        unfold writeLogMessagesWith
        rw [if_pos hb]
      obtain ⟨ih1, ih2⟩ := ih ws hj
      have hrun : runFlushes cfg ws ((b, s) :: rest)
          = ((runFlushes cfg ws rest).1, [] :: (runFlushes cfg ws rest).2) := by
        show ((runFlushes cfg (writeLogMessagesWith cfg ws b s).1 rest).1,
            (writeLogMessagesWith cfg ws b s).2 ::
              (runFlushes cfg (writeLogMessagesWith cfg ws b s).1 rest).2) = _
        rw [hwlm]
      constructor
      · rw [hrun]
        simpa [slotRun, hb] using ih1
      · rw [hrun]
        simpa [slotRun, hb, eventsFor] using ih2
    · have hwlm : writeLogMessagesWith cfg ws b s
          = flushWritersAux (deliveredArrays cfg s).1 (deliveredArrays cfg s).2 0 ws := by
        unfold writeLogMessagesWith
        rw [if_neg hb]
      have hlen : (flushWritersAux (deliveredArrays cfg s).1
          (deliveredArrays cfg s).2 0 ws).1.length = ws.length :=
        flushWritersAux_length _ _ 0 ws
      have hj' : j < (flushWritersAux (deliveredArrays cfg s).1
          (deliveredArrays cfg s).2 0 ws).1.length := by
        rw [hlen]; exact hj
      have hget : (flushWritersAux (deliveredArrays cfg s).1
            (deliveredArrays cfg s).2 0 ws).1.getD j none
          = (writerStep j (deliveredArrays cfg s).1 (deliveredArrays cfg s).2
              (ws.getD j none)).1 := by
        have := flushWritersAux_getD (deliveredArrays cfg s).1
          (deliveredArrays cfg s).2 0 ws j hj
        simpa using this
      have hev : eventsFor j (flushWritersAux (deliveredArrays cfg s).1
            (deliveredArrays cfg s).2 0 ws).2
          = (writerStep j (deliveredArrays cfg s).1 (deliveredArrays cfg s).2
              (ws.getD j none)).2 := by
        have := eventsFor_flushWritersAux (deliveredArrays cfg s).1
          (deliveredArrays cfg s).2 0 ws j hj
        simpa using this
      obtain ⟨ih1, ih2⟩ := ih (flushWritersAux (deliveredArrays cfg s).1
        (deliveredArrays cfg s).2 0 ws).1 hj'
      have hrun : runFlushes cfg ws ((b, s) :: rest)
          = ((runFlushes cfg (flushWritersAux (deliveredArrays cfg s).1
                (deliveredArrays cfg s).2 0 ws).1 rest).1,
             (flushWritersAux (deliveredArrays cfg s).1
                (deliveredArrays cfg s).2 0 ws).2 ::
              (runFlushes cfg (flushWritersAux (deliveredArrays cfg s).1
                (deliveredArrays cfg s).2 0 ws).1 rest).2) := by
        show ((runFlushes cfg (writeLogMessagesWith cfg ws b s).1 rest).1,
            (writeLogMessagesWith cfg ws b s).2 ::
              (runFlushes cfg (writeLogMessagesWith cfg ws b s).1 rest).2) = _
        rw [hwlm]
      constructor
      · rw [hrun]
        show (runFlushes cfg (flushWritersAux (deliveredArrays cfg s).1
            (deliveredArrays cfg s).2 0 ws).1 rest).1.getD j none = _
        rw [ih1, hget]
        simp [slotRun, hb]
      · rw [hrun]
        show eventsFor j (flushWritersAux (deliveredArrays cfg s).1
              (deliveredArrays cfg s).2 0 ws).2 ::
            (runFlushes cfg (flushWritersAux (deliveredArrays cfg s).1
              (deliveredArrays cfg s).2 0 ws).1 rest).2.map (eventsFor j) = _
        rw [ih2, hev, hget]
        simp [slotRun, hb]

/-- C7: if the writer at slot `i` reports `ErrWriterDisable` on a nonempty
flush after surviving all earlier flushes, then in that flush it is written
to once more and closed, its registry slot holds the disabled marker
(`nil`) afterwards, it receives no action in any later flush, and every
other slot's per-flush actions are exactly the function of its own initial
writer and the flush sequence (`slotRun`) — unaffected by slot `i`. -/
theorem writer_disable_permanent (cfg : Config) (ws : List (Option Writer))
    (i : Nat) (w : Writer)
    (pre post : List (List LogMsg × List LogMsg)) (bk sk : List LogMsg)
    (hi : ws.getD i none = some w) (hilen : i < ws.length)
    (halive : ∀ p ∈ pre, p.1 = [] ∨
        w.resp (deliveredArrays cfg p.2).1 (deliveredArrays cfg p.2).2 ≠ .disable)
    (hbk : ¬bk.length ≤ 0)
    (hdis : w.resp (deliveredArrays cfg sk).1 (deliveredArrays cfg sk).2 = .disable) :
    (runFlushes cfg ws (pre ++ (bk, sk) :: post)).1.getD i none = none ∧
    (runFlushes cfg ws (pre ++ (bk, sk) :: post)).2.map (eventsFor i)
      = (pre.map (fun p => if p.1.length ≤ 0 then [] else
            [WAction.write i (deliveredArrays cfg p.2).1 (deliveredArrays cfg p.2).2]))
        ++ ([WAction.write i (deliveredArrays cfg sk).1 (deliveredArrays cfg sk).2,
            WAction.closeWriter i] :: post.map (fun _ => [])) ∧
    (∀ j, j < ws.length → j ≠ i →
        (runFlushes cfg ws (pre ++ (bk, sk) :: post)).2.map (eventsFor j)
          = (slotRun cfg j (ws.getD j none) (pre ++ (bk, sk) :: post)).2) := by
  have hm := runFlushes_slot cfg (pre ++ (bk, sk) :: post) ws i hilen
  have hpre := slotRun_alive cfg i w pre halive
  have hstep := slotRun_disable cfg i w bk sk post hbk hdis
  have hfull : slotRun cfg i (some w) (pre ++ (bk, sk) :: post)
      = (none, (pre.map (fun p => if p.1.length ≤ 0 then [] else
            [WAction.write i (deliveredArrays cfg p.2).1 (deliveredArrays cfg p.2).2]))
          ++ ([WAction.write i (deliveredArrays cfg sk).1 (deliveredArrays cfg sk).2,
              WAction.closeWriter i] :: post.map (fun _ => []))) := by
    rw [slotRun_append cfg i (some w) pre ((bk, sk) :: post), hpre]
    dsimp only
    rw [hstep]
  refine ⟨?_, ?_, ?_⟩
  · rw [hm.1, hi, hfull]
  · rw [hm.2, hi, hfull]
  · intro j hj _
    exact (runFlushes_slot cfg (pre ++ (bk, sk) :: post) ws j hj).2

/-- Witness for C7: two writers; the second replies with the disable
condition on the first (nonempty) flush and is closed, slot set to `nil`,
silent on the following flush; the first writer's actions are its own
`slotRun`. -/
theorem writer_disable_permanent_witness :
    (runFlushes exCfg [some exWriterOk, some exWriterDisable]
        ([] ++ ([tsMsg 1 "a"], [tsMsg 1 "a"]) ::
          [([tsMsg 2 "b"], [tsMsg 2 "b"])])).1.getD 1 none = none ∧
    (runFlushes exCfg [some exWriterOk, some exWriterDisable]
        ([] ++ ([tsMsg 1 "a"], [tsMsg 1 "a"]) ::
          [([tsMsg 2 "b"], [tsMsg 2 "b"])])).2.map (eventsFor 1)
      = (([] : List (List LogMsg × List LogMsg)).map (fun p => if p.1.length ≤ 0 then [] else
            [WAction.write 1 (deliveredArrays exCfg p.2).1 (deliveredArrays exCfg p.2).2]))
        ++ ([WAction.write 1 (deliveredArrays exCfg [tsMsg 1 "a"]).1
              (deliveredArrays exCfg [tsMsg 1 "a"]).2,
            WAction.closeWriter 1] ::
          [([tsMsg 2 "b"], [tsMsg 2 "b"])].map (fun _ => [])) ∧
    (∀ j, j < ([some exWriterOk, some exWriterDisable] : List (Option Writer)).length →
        j ≠ 1 →
        (runFlushes exCfg [some exWriterOk, some exWriterDisable]
            ([] ++ ([tsMsg 1 "a"], [tsMsg 1 "a"]) ::
              [([tsMsg 2 "b"], [tsMsg 2 "b"])])).2.map (eventsFor j)
          = (slotRun exCfg j (([some exWriterOk, some exWriterDisable] :
                List (Option Writer)).getD j none)
              ([] ++ ([tsMsg 1 "a"], [tsMsg 1 "a"]) ::
                [([tsMsg 2 "b"], [tsMsg 2 "b"])])).2) :=
  writer_disable_permanent exCfg [some exWriterOk, some exWriterDisable] 1
    exWriterDisable [] [([tsMsg 2 "b"], [tsMsg 2 "b"])] [tsMsg 1 "a"] [tsMsg 1 "a"]
    rfl (by decide) (by simp) (by decide) rfl

set_option maxHeartbeats 2000000 in
/-- Counterexample to C2 as stated: `sort.Slice` is not stable.  On the
seven-message batch `c2Batch`, the algorithm Go's `sort.Slice` runs (gap-6
shell pass then insertion sort at this length) yields a contract-valid
sorted arrangement in which the equal-timestamp messages "0" (enqueued
first) and "3" appear in the opposite of their enqueue order, so
equal-timestamp messages do NOT appear in arrival order. -/
theorem flush_sort_not_stable :
    sortSliceOK tsLess c2Batch (goSortSlice tsLess c2Batch) ∧
    (tsMsg 5 "0").timestamp = (tsMsg 5 "3").timestamp ∧
    c2Batch.indexOf (tsMsg 5 "0") < c2Batch.indexOf (tsMsg 5 "3") ∧
    (goSortSlice tsLess c2Batch).indexOf (tsMsg 5 "3")
      < (goSortSlice tsLess c2Batch).indexOf (tsMsg 5 "0") :=
  ⟨⟨by decide, by decide⟩, by decide, by decide, by decide⟩

end Logthing
